import Mathlib

/-!
Verification of the MariaDB GTID replication core (sql/rpl_gtid.h and
sql/wsrep_thd.cc) against its natural-language specification.

The data model and the operations below are a shallow embedding of the
source. Machine integers are modelled as `Nat` with explicit bounds
(`< 2^32`, `< 2^64`) where the C types enforce them. Code whose
implementation file (sql/rpl_gtid.cc) is not part of the repository
snapshot is modelled from the specification; every such definition carries
a doc comment starting with `Modelled from the spec:`.
-/

set_option maxRecDepth 4096

/-- Source: `#define GTID_MAX_STR_LENGTH (10+1+10+1+20)` (sql/rpl_gtid.h line 30). -/
def GTID_MAX_STR_LENGTH : Nat := 10 + 1 + 10 + 1 + 20

/-- Source: `struct rpl_gtid { uint32 domain_id; uint32 server_id; uint64 seq_no; }`
(sql/rpl_gtid.h lines 33-38). The `uint32`/`uint64` fields are modelled as `Nat`
with wellformedness bounds in `rpl_gtid.wf`. -/
structure rpl_gtid where
  domain_id : Nat
  server_id : Nat
  seq_no : Nat
deriving DecidableEq, Repr

/-- Bounds imposed by the C types `uint32`, `uint32`, `uint64` of `rpl_gtid`. -/
def rpl_gtid.wf (g : rpl_gtid) : Prop :=
  g.domain_id < 2 ^ 32 ∧ g.server_id < 2 ^ 32 ∧ g.seq_no < 2 ^ 64

instance (g : rpl_gtid) : Decidable g.wf := by
  unfold rpl_gtid.wf; infer_instance

/-! ## Decimal rendering of a GTID (component C1 of the spec, §4.1)

The renderer (`rpl_slave_state_tostring_helper`, used with format `%u-%u-%llu`)
lives in sql/rpl_gtid.cc which is not in the snapshot; the functions below are
modelled from the spec: encode produces `D-S-Q` with minimum decimal digits. -/

/-- Decimal digit character for a digit value `d < 10`. -/
def decChar (d : Nat) : Char := Char.ofNat (48 + d)

/-- Numeric value of a decimal digit character. -/
def charVal (c : Char) : Nat := c.toNat - 48

/-- Test for a decimal digit character. -/
def isDecDigit (c : Char) : Bool := 48 ≤ c.toNat && c.toNat ≤ 57

/-- Modelled from the spec: minimal-decimal-digit rendering of an unsigned
integer, as produced by the `%u`/`%llu` conversions used for GTID text. -/
def decStr (n : Nat) : List Char :=
  if n = 0 then ['0'] else ((Nat.digits 10 n).reverse.map decChar)

/-- Modelled from the spec: textual form `D-S-Q` of one GTID (spec §3, §4.1). -/
def gtidToString (g : rpl_gtid) : List Char :=
  decStr g.domain_id ++ '-' :: decStr g.server_id ++ '-' :: decStr g.seq_no

/-- Modelled from the spec: comma-separated rendering of a GTID list (§4.1). -/
def gtidListToString (L : List rpl_gtid) : List Char :=
  List.intercalate [','] (L.map gtidToString)

/-! Basic facts about digits and digit characters. -/

theorem charVal_decChar {d : Nat} (h : d < 10) : charVal (decChar d) = d := by
  interval_cases d <;> decide

theorem isDecDigit_decChar {d : Nat} (h : d < 10) : isDecDigit (decChar d) = true := by
  interval_cases d <;> decide

theorem decChar_ne_dash {d : Nat} (h : d < 10) : decChar d ≠ '-' := by
  interval_cases d <;> decide

theorem mem_decStr {c : Char} {n : Nat} (h : c ∈ decStr n) : isDecDigit c = true := by
  unfold decStr at h
  split at h
  · rw [List.mem_singleton] at h; subst h; decide
  · rcases List.mem_map.mp h with ⟨d, hd, rfl⟩
    exact isDecDigit_decChar (Nat.digits_lt_base (by norm_num) (List.mem_reverse.mp hd))

theorem decStr_ne_nil (n : Nat) : decStr n ≠ [] := by
  unfold decStr
  split
  · simp
  · simp [Nat.digits_ne_nil_iff_ne_zero, *]

/-- Digit-count bound: `n < 10^k` gives at most `k` characters (for `k ≥ 1`). -/
theorem decStr_length_le {n k : Nat} (hk : 1 ≤ k) (h : n < 10 ^ k) :
    (decStr n).length ≤ k := by
  unfold decStr
  split
  · simpa using hk
  · rename_i hn
    rw [List.length_map, List.length_reverse]
    by_contra hgt
    push_neg at hgt
    have h1 : 10 ^ (Nat.digits 10 n).length ≤ 10 * n :=
      Nat.base_pow_length_digits_le 10 n (by norm_num) hn
    have h2 : 10 * n < 10 ^ (k + 1) := by
      calc 10 * n < 10 * 10 ^ k := by omega
        _ = 10 ^ (k + 1) := by ring
    have h3 : 10 ^ (k + 1) ≤ 10 ^ (Nat.digits 10 n).length :=
      Nat.pow_le_pow_right (by norm_num) hgt
    omega

/-- C10: for every wellformed GTID triple, the textual rendering `D-S-Q` in
minimal decimal digits fits in `GTID_MAX_STR_LENGTH = 42` characters
(10 digits per `uint32`, 20 for the `uint64`, two separators). -/
theorem gtid_text_fits_max_str_length (g : rpl_gtid) (h : g.wf) :
    (gtidToString g).length ≤ GTID_MAX_STR_LENGTH := by
  obtain ⟨hd, hs, hq⟩ := h
  have h1 : (decStr g.domain_id).length ≤ 10 :=
    decStr_length_le (by norm_num) (lt_of_lt_of_le hd (by norm_num))
  have h2 : (decStr g.server_id).length ≤ 10 :=
    decStr_length_le (by norm_num) (lt_of_lt_of_le hs (by norm_num))
  have h3 : (decStr g.seq_no).length ≤ 20 :=
    decStr_length_le (by norm_num) (lt_of_lt_of_le hq (by norm_num))
  unfold gtidToString GTID_MAX_STR_LENGTH
  simp only [List.length_append, List.length_cons]
  omega

/-- Witness for C10 at a concrete GTID. -/
theorem gtid_text_fits_max_str_length_witness :
    (gtidToString ⟨4294967295, 7, 18446744073709551615⟩).length ≤ GTID_MAX_STR_LENGTH :=
  gtid_text_fits_max_str_length ⟨4294967295, 7, 18446744073709551615⟩ (by decide)

/-! ## Textual GTID list decoding (spec §4.1, §6)

The decoder `gtid_parse_string_to_list` is declared in sql/rpl_gtid.h
(lines 382-383) but implemented in sql/rpl_gtid.cc, which is not in the
snapshot. It is modelled from the spec: a list matches
`(gtid (',' gtid)*)?` (possibly empty), whitespace around commas is
tolerated, domain and server are `u32`, seq is `u64`, and duplicate domains
are rejected for the consumers that require domain-uniqueness. -/

/-- Strip spaces from both ends of a token (spec: whitespace around commas
is tolerated). -/
def trim_spaces (cs : List Char) : List Char :=
  ((cs.dropWhile (fun c => c == ' ')).reverse.dropWhile (fun c => c == ' ')).reverse

/-- Modelled from the spec: parse a non-empty all-decimal token as a number. -/
def parseDecNat (cs : List Char) : Option Nat :=
  if cs ≠ [] ∧ cs.all isDecDigit = true then
    some (cs.foldl (fun a c => 10 * a + charVal c) 0)
  else none

/-- Modelled from the spec: parse one `D-S-Q` item, checking the `u32`/`u32`/`u64`
bounds of `rpl_gtid`. -/
def parseGtid (cs : List Char) : Option rpl_gtid :=
  match (trim_spaces cs).splitOn '-' with
  | [d, s, q] =>
    match parseDecNat d, parseDecNat s, parseDecNat q with
    | some dn, some sn, some qn =>
      if dn < 2 ^ 32 ∧ sn < 2 ^ 32 ∧ qn < 2 ^ 64 then some ⟨dn, sn, qn⟩ else none
    | _, _, _ => none
  | _ => none

/-- Parse every comma-separated token, failing if any token fails. -/
def parse_all : List (List Char) → Option (List rpl_gtid)
  | [] => some []
  | p :: ps =>
    match parseGtid p, parse_all ps with
    | some g, some gs => some (g :: gs)
    | _, _ => none

/-- Modelled from the spec: `gtid_parse_string_to_list` (decl. sql/rpl_gtid.h
lines 382-383). Accepts `(gtid (',' gtid)*)?` possibly empty and rejects
`DuplicateDomainInList` for domain-unique consumers (spec §4.1, §6). -/
def gtid_parse_string_to_list (cs : List Char) : Option (List rpl_gtid) :=
  if cs = [] then some []
  else
    match parse_all (cs.splitOn ',') with
    | none => none
    | some L => if (L.map rpl_gtid.domain_id).Nodup then some L else none

theorem foldl_charVal_decChar (l : List Nat) (hl : ∀ d ∈ l, d < 10) (a : Nat) :
    (l.map decChar).foldl (fun a c => 10 * a + charVal c) a =
      l.foldl (fun a d => 10 * a + d) a := by
  induction l generalizing a with
  | nil => rfl
  | cons d t ih =>
    simp only [List.map_cons, List.foldl_cons]
    rw [charVal_decChar (hl d (by simp))]
    exact ih (fun x hx => hl x (by simp [hx])) _

theorem foldl_msd_eq_ofDigits (l : List Nat) (a : Nat) :
    l.reverse.foldl (fun a d => 10 * a + d) a =
      Nat.ofDigits 10 l + a * 10 ^ l.length := by
  induction l generalizing a with
  | nil => simp
  | cons d t ih =>
    simp only [List.reverse_cons, List.foldl_append, List.foldl_cons, List.foldl_nil,
      Nat.ofDigits_cons, List.length_cons]
    rw [ih a]
    ring

/-- Parsing is a left inverse of minimal-decimal rendering. -/
theorem parseDecNat_decStr (n : Nat) : parseDecNat (decStr n) = some n := by
  by_cases hn : n = 0
  · subst hn; decide
  · unfold parseDecNat decStr
    rw [if_neg hn]
    rw [if_pos]
    · congr 1
      rw [List.foldl_map (f := decChar) (g := fun a c => 10 * a + charVal c)]
      have heq : ∀ a : Nat, (Nat.digits 10 n).reverse.foldl
          (fun a d => 10 * a + charVal (decChar d)) a =
          (Nat.digits 10 n).reverse.foldl (fun a d => 10 * a + d) a := by
        intro a
        have := foldl_charVal_decChar (Nat.digits 10 n).reverse
          (fun d hd => Nat.digits_lt_base (by norm_num) (List.mem_reverse.mp hd)) a
        rwa [List.foldl_map] at this
      rw [heq 0, foldl_msd_eq_ofDigits, Nat.ofDigits_digits]
      simp
    · constructor
      · simp [Nat.digits_ne_nil_iff_ne_zero, hn]
      · rw [List.all_eq_true]
        intro c hc
        rcases List.mem_map.mp hc with ⟨d, hd, rfl⟩
        exact isDecDigit_decChar (Nat.digits_lt_base (by norm_num) (List.mem_reverse.mp hd))

theorem not_space_of_isDecDigit {c : Char} (h : isDecDigit c = true) : (c == ' ') = false := by
  rw [beq_eq_false_iff_ne]
  intro hc
  subst hc
  exact absurd h (by decide)

theorem dropWhile_no_match {p : Char → Bool} (l : List Char) (h : ∀ c ∈ l, p c = false) :
    l.dropWhile p = l := by
  cases l with
  | nil => rfl
  | cons a t => simp [List.dropWhile_cons, h a (by simp)]

/-- Trimming is the identity on tokens with no spaces. -/
theorem trim_spaces_eq_self {cs : List Char} (h : ∀ c ∈ cs, (c == ' ') = false) :
    trim_spaces cs = cs := by
  unfold trim_spaces
  rw [dropWhile_no_match cs h]
  rw [dropWhile_no_match cs.reverse (fun c hc => h c (List.mem_reverse.mp hc))]
  exact List.reverse_reverse cs



theorem mem_gtidToString {c : Char} {g : rpl_gtid} (h : c ∈ gtidToString g) :
    isDecDigit c = true ∨ c = '-' := by
  unfold gtidToString at h
  rw [List.mem_append] at h
  rcases h with h | h
  · rw [List.mem_append] at h
    rcases h with h | h
    · exact Or.inl (mem_decStr h)
    · rw [List.mem_cons] at h
      rcases h with rfl | h
      · exact Or.inr rfl
      · exact Or.inl (mem_decStr h)
  · rw [List.mem_cons] at h
    rcases h with rfl | h
    · exact Or.inr rfl
    · exact Or.inl (mem_decStr h)

theorem gtidToString_eq_intercalate (g : rpl_gtid) :
    gtidToString g =
      List.intercalate ['-'] [decStr g.domain_id, decStr g.server_id, decStr g.seq_no] := by
  unfold gtidToString
  simp [List.intercalate]

theorem dash_not_mem_decStr (n : Nat) : '-' ∉ decStr n := by
  intro h
  exact absurd (mem_decStr h) (by decide)

theorem splitOn_dash_gtidToString (g : rpl_gtid) :
    (gtidToString g).splitOn '-' =
      [decStr g.domain_id, decStr g.server_id, decStr g.seq_no] := by
  rw [gtidToString_eq_intercalate]
  apply List.splitOn_intercalate
  · intro l hl
    simp only [List.mem_cons, List.not_mem_nil, or_false] at hl
    rcases hl with rfl | rfl | rfl <;> exact dash_not_mem_decStr _
  · simp

theorem trim_spaces_gtidToString (g : rpl_gtid) :
    trim_spaces (gtidToString g) = gtidToString g := by
  apply trim_spaces_eq_self
  intro c hc
  rcases mem_gtidToString hc with h | rfl
  · exact not_space_of_isDecDigit h
  · decide

/-- Parsing one item is a left inverse of rendering it, for wellformed GTIDs. -/
theorem parseGtid_gtidToString (g : rpl_gtid) (h : g.wf) :
    parseGtid (gtidToString g) = some g := by
  obtain ⟨h1, h2, h3⟩ := h
  unfold parseGtid
  rw [trim_spaces_gtidToString, splitOn_dash_gtidToString]
  simp only [parseDecNat_decStr]
  rw [if_pos ⟨h1, h2, h3⟩]

theorem comma_not_mem_gtidToString (g : rpl_gtid) : ',' ∉ gtidToString g := by
  intro h
  rcases mem_gtidToString h with h | h
  · exact absurd h (by decide)
  · exact absurd h (by decide)

theorem gtidToString_ne_nil (g : rpl_gtid) : gtidToString g ≠ [] := by
  unfold gtidToString
  intro h
  have hlen := congrArg List.length h
  simp only [List.length_append, List.length_cons, List.length_nil] at hlen
  omega

theorem splitOn_comma_gtidListToString {L : List rpl_gtid} (hL : L ≠ []) :
    (gtidListToString L).splitOn ',' = L.map gtidToString := by
  unfold gtidListToString
  apply List.splitOn_intercalate
  · intro l hl
    rcases List.mem_map.mp hl with ⟨g, _, rfl⟩
    exact comma_not_mem_gtidToString g
  · simpa using hL

theorem parse_all_map_gtidToString {L : List rpl_gtid} (h : ∀ g ∈ L, g.wf) :
    parse_all (L.map gtidToString) = some L := by
  induction L with
  | nil => rfl
  | cons g t ih =>
    simp only [List.map_cons, parse_all]
    rw [parseGtid_gtidToString g (h g (by simp)), ih (fun x hx => h x (by simp [hx]))]

theorem gtidListToString_ne_nil {L : List rpl_gtid} (hL : L ≠ []) :
    gtidListToString L ≠ [] := by
  cases L with
  | nil => exact absurd rfl hL
  | cons g t =>
    intro hcontra
    have h1 := splitOn_comma_gtidListToString (L := g :: t) (by simp)
    rw [hcontra] at h1
    simp only [List.splitOn_nil, List.map_cons] at h1
    have h2 : gtidToString g = [] := by
      injection h1 with ha hb
      exact ha.symm
    exact gtidToString_ne_nil g h2

/-! ## Binary GTID list record (spec §4.1, §6)

`rpl_binlog_state::write_to_iocache` / `read_from_iocache` (decl.
sql/rpl_gtid.h lines 322-323) are implemented in sql/rpl_gtid.cc, not in the
snapshot. Modelled from the spec: the start-of-file record is a little-endian
`u32 count` followed by `count` triples `(u32 domain, u32 server, u64 seq)`,
all little-endian. Bytes are modelled as `Nat` values `< 256`. -/

/-- Little-endian encoding of `n` into exactly `width` bytes. -/
def natToLE : Nat → Nat → List Nat
  | 0, _ => []
  | width + 1, n => n % 256 :: natToLE width (n / 256)

/-- Little-endian value of a byte list. -/
def leToNat : List Nat → Nat
  | [] => 0
  | b :: bs => b + 256 * leToNat bs

/-- Read a `width`-byte little-endian field, returning it and the rest. -/
def readLE (width : Nat) (bs : List Nat) : Option (Nat × List Nat) :=
  if width ≤ bs.length then some (leToNat (bs.take width), bs.drop width) else none

/-- Modelled from the spec: the body of the binary GTID list record, one
`(u32 domain, u32 server, u64 seq)` triple per GTID. -/
def gtid_bin_body : List rpl_gtid → List Nat
  | [] => []
  | g :: gs =>
    natToLE 4 g.domain_id ++ natToLE 4 g.server_id ++ natToLE 8 g.seq_no ++ gtid_bin_body gs

/-- Modelled from the spec: `rpl_binlog_state::write_to_iocache` output format,
`u32 count` little-endian then the triples. -/
def gtid_list_to_bin (L : List rpl_gtid) : List Nat :=
  natToLE 4 L.length ++ gtid_bin_body L

/-- Modelled from the spec: read `count` triples. -/
def read_gtids : Nat → List Nat → Option (List rpl_gtid × List Nat)
  | 0, bs => some ([], bs)
  | count + 1, bs =>
    (readLE 4 bs).bind fun ds =>
    (readLE 4 ds.2).bind fun ss =>
    (readLE 8 ss.2).bind fun qs =>
    (read_gtids count qs.2).bind fun gr =>
    some (⟨ds.1, ss.1, qs.1⟩ :: gr.1, gr.2)

/-- Modelled from the spec: `rpl_binlog_state::read_from_iocache`, decoding a
complete binary GTID list record. -/
def gtid_list_from_bin (bs : List Nat) : Option (List rpl_gtid) :=
  (readLE 4 bs).bind fun cr =>
  (read_gtids cr.1 cr.2).bind fun lr =>
  if lr.2 = [] then some lr.1 else none

theorem natToLE_length (width n : Nat) : (natToLE width n).length = width := by
  induction width generalizing n with
  | zero => rfl
  | succ w ih => simp [natToLE, ih]

theorem leToNat_natToLE {width n : Nat} (h : n < 256 ^ width) :
    leToNat (natToLE width n) = n := by
  induction width generalizing n with
  | zero => simp [natToLE, leToNat]; omega
  | succ w ih =>
    simp only [natToLE, leToNat]
    rw [ih]
    · omega
    · have hp : 256 ^ (w + 1) = 256 ^ w * 256 := by ring
      rw [hp] at h
      exact Nat.div_lt_of_lt_mul (by omega)

theorem readLE_natToLE_append {width n : Nat} (rest : List Nat) (h : n < 256 ^ width) :
    readLE width (natToLE width n ++ rest) = some (n, rest) := by
  unfold readLE
  rw [if_pos]
  · rw [List.take_append_of_le_length (by rw [natToLE_length]),
      List.drop_append_of_le_length (by rw [natToLE_length])]
    rw [List.take_of_length_le (by rw [natToLE_length]), List.drop_of_length_le (by rw [natToLE_length])]
    rw [leToNat_natToLE h]
    simp
  · rw [List.length_append, natToLE_length]
    omega

theorem read_gtids_gtid_bin_body {L : List rpl_gtid} (h : ∀ g ∈ L, g.wf) (rest : List Nat) :
    read_gtids L.length (gtid_bin_body L ++ rest) = some (L, rest) := by
  induction L with
  | nil => rfl
  | cons g t ih =>
    obtain ⟨h1, h2, h3⟩ := h g (by simp)
    simp only [List.length_cons, gtid_bin_body, read_gtids, List.append_assoc]
    rw [readLE_natToLE_append _ (show g.domain_id < 256 ^ 4 by norm_num at h1 ⊢; omega)]
    rw [Option.some_bind]
    rw [readLE_natToLE_append _ (show g.server_id < 256 ^ 4 by norm_num at h2 ⊢; omega)]
    rw [Option.some_bind]
    rw [readLE_natToLE_append _ (show g.seq_no < 256 ^ 8 by norm_num at h3 ⊢; omega)]
    rw [Option.some_bind]
    rw [ih (fun x hx => h x (by simp [hx]))]
    rfl

/-- Binary round-trip: decoding the record of a wellformed list yields it back. -/
theorem gtid_list_from_bin_to_bin {L : List rpl_gtid} (h : ∀ g ∈ L, g.wf)
    (hlen : L.length < 2 ^ 32) : gtid_list_from_bin (gtid_list_to_bin L) = some L := by
  unfold gtid_list_from_bin gtid_list_to_bin
  rw [readLE_natToLE_append _ (show L.length < 256 ^ 4 by norm_num at hlen ⊢; omega)]
  rw [Option.some_bind]
  have hb := read_gtids_gtid_bin_body h ([] : List Nat)
  rw [List.append_nil] at hb
  rw [hb, Option.some_bind]
  rfl

/-- C6: for every GTID list with no duplicate domains (and within the `u32`/`u64`
bounds of the C types), decoding the textual encoding yields the list back, and
decoding the binary GTID-list record encoding yields the list back. -/
theorem gtid_list_roundtrip (L : List rpl_gtid) (hwf : ∀ g ∈ L, g.wf)
    (hnodup : (L.map rpl_gtid.domain_id).Nodup) (hlen : L.length < 2 ^ 32) :
    gtid_parse_string_to_list (gtidListToString L) = some L ∧
      gtid_list_from_bin (gtid_list_to_bin L) = some L := by
  constructor
  · by_cases hL : L = []
    · subst hL; rfl
    · unfold gtid_parse_string_to_list
      rw [if_neg (gtidListToString_ne_nil hL)]
      rw [splitOn_comma_gtidListToString hL, parse_all_map_gtidToString hwf]
      exact if_pos hnodup
  · exact gtid_list_from_bin_to_bin hwf hlen

/-- Witness for C6 at a concrete two-element list. -/
theorem gtid_list_roundtrip_witness :
    gtid_parse_string_to_list (gtidListToString [⟨0, 1, 100⟩, ⟨3, 2, 9⟩]) =
        some [⟨0, 1, 100⟩, ⟨3, 2, 9⟩] ∧
      gtid_list_from_bin (gtid_list_to_bin [⟨0, 1, 100⟩, ⟨3, 2, 9⟩]) =
        some [⟨0, 1, 100⟩, ⟨3, 2, 9⟩] :=
  gtid_list_roundtrip [⟨0, 1, 100⟩, ⟨3, 2, 9⟩] (by decide) (by decide) (by decide)

/-! ## Binlog state (spec §4.2, source sql/rpl_gtid.h lines 270-333)

`rpl_binlog_state` keeps, per domain, a hash from `server_id` to the most
recent GTID logged from that server, the most recent entry, and a per-domain
`seq_no_counter`. The strict-mode update logic (`update_nolock`, declared at
sql/rpl_gtid.h line 315) is implemented in sql/rpl_gtid.cc, which is not in
the snapshot; it is modelled from spec §4.2. -/

/-- Strict-mode rejection kinds of `rpl_binlog_state::update` (spec §4.2, §7). -/
inductive binlog_update_error where
  | OutOfOrderSeq
  | NonMonotonicSeq
deriving DecidableEq, Repr

/-- One domain of `rpl_binlog_state` (source struct `rpl_binlog_state::element`,
sql/rpl_gtid.h lines 287-296). The per-server hash is modelled as a list with
at most one entry per server_id. -/
structure binlog_element where
  domain_id : Nat
  entries : List rpl_gtid
  last_gtid : Option rpl_gtid
  seq_no_counter : Nat
deriving DecidableEq, Repr

/-- Source struct `rpl_binlog_state` (sql/rpl_gtid.h lines 285-333); the
domain hash is modelled as a list with at most one element per domain_id. -/
structure rpl_binlog_state_t where
  elements : List binlog_element
deriving DecidableEq, Repr

/-- Empty binlog state (after `reset`). -/
def rpl_binlog_state_empty : rpl_binlog_state_t := ⟨[]⟩

/-- Hash lookup of the element for one domain. -/
def binlog_find_element (st : rpl_binlog_state_t) (domain_id : Nat) :
    Option binlog_element :=
  st.elements.find? (fun e => e.domain_id == domain_id)

/-- Largest seq_no among the per-server entries of a domain (spec §4.2
`max_in_domain`). -/
def domain_max (e : binlog_element) : Nat :=
  e.entries.foldr (fun g m => max g.seq_no m) 0

/-- Insert or replace the per-server slot of `g.server_id`. -/
def set_server_entry : List rpl_gtid → rpl_gtid → List rpl_gtid
  | [], g => [g]
  | x :: xs, g => if x.server_id = g.server_id then g :: xs else x :: set_server_entry xs g

/-- Replace the element of `e.domain_id` in the domain list. -/
def set_domain_element : List binlog_element → binlog_element → List binlog_element
  | [], e => [e]
  | x :: xs, e => if x.domain_id = e.domain_id then e :: xs else x :: set_domain_element xs e

/-- Source inline logic of `rpl_binlog_state::element::update_element`
(decl. sql/rpl_gtid.h line 295, spec §4.2): insert/replace the (domain, server)
slot, set `last_gtid`, and advance `seq_no_counter` to the max. -/
def binlog_element.update_element (e : binlog_element) (g : rpl_gtid) : binlog_element :=
  { e with entries := set_server_entry e.entries g,
           last_gtid := some g,
           seq_no_counter := max e.seq_no_counter g.seq_no }

/-- Modelled from the spec: `rpl_binlog_state::update_nolock` (decl.
sql/rpl_gtid.h line 315; implementation in sql/rpl_gtid.cc is not in the
snapshot). Spec §4.2: if strict and a prior entry in this domain has
`seq_no ≥ g.seq_no`, fail OutOfOrderSeq; if strict and the new seq_no is not
exactly `max_in_domain + 1`, fail NonMonotonicSeq; otherwise commit. -/
def update_nolock (st : rpl_binlog_state_t) (g : rpl_gtid) (strict : Bool) :
    Except binlog_update_error rpl_binlog_state_t :=
  match binlog_find_element st g.domain_id with
  | none =>
    .ok ⟨⟨g.domain_id, [g], some g, g.seq_no⟩ :: st.elements⟩
  | some e =>
    if strict = true ∧ ∃ p ∈ e.entries, g.seq_no ≤ p.seq_no then
      .error .OutOfOrderSeq
    else if strict = true ∧ g.seq_no ≠ domain_max e + 1 then
      .error .NonMonotonicSeq
    else
      .ok ⟨set_domain_element st.elements (e.update_element g)⟩

theorem update_nolock_eq_of_find {st : rpl_binlog_state_t} {e : binlog_element}
    {g : rpl_gtid} (strict : Bool) (hfind : binlog_find_element st g.domain_id = some e) :
    update_nolock st g strict =
      if strict = true ∧ ∃ p ∈ e.entries, g.seq_no ≤ p.seq_no then
        .error .OutOfOrderSeq
      else if strict = true ∧ g.seq_no ≠ domain_max e + 1 then
        .error .NonMonotonicSeq
      else
        .ok ⟨set_domain_element st.elements (e.update_element g)⟩ := by
  unfold update_nolock
  rw [hfind]

/-- C2: strict-mode rejection rules of `rpl_binlog_state::update`. For a state
holding element `e` for the domain of `g`: OutOfOrderSeq exactly when a prior
entry of the domain has `seq_no ≥ g.seq_no`; otherwise NonMonotonicSeq exactly
when `g.seq_no` is not the domain maximum plus one; success otherwise.
Concretely, after recording `(D, S, 5)` from the empty state:
`update (D,S,5)` fails OutOfOrderSeq, `update (D,S,7)` fails NonMonotonicSeq,
and `update (D,S,6)` succeeds. -/
theorem binlog_strict_update_spec (st : rpl_binlog_state_t) (e : binlog_element)
    (g : rpl_gtid) (hfind : binlog_find_element st g.domain_id = some e) (D S : Nat) :
    (update_nolock st g true = .error .OutOfOrderSeq ↔
        ∃ p ∈ e.entries, p.seq_no ≥ g.seq_no) ∧
    (update_nolock st g true = .error .NonMonotonicSeq ↔
        (¬ ∃ p ∈ e.entries, p.seq_no ≥ g.seq_no) ∧ g.seq_no ≠ domain_max e + 1) ∧
    ((∃ st2, update_nolock st g true = .ok st2) ↔
        (¬ ∃ p ∈ e.entries, p.seq_no ≥ g.seq_no) ∧ g.seq_no = domain_max e + 1) ∧
    (update_nolock rpl_binlog_state_empty ⟨D, S, 5⟩ true =
        .ok ⟨[⟨D, [⟨D, S, 5⟩], some ⟨D, S, 5⟩, 5⟩]⟩) ∧
    (update_nolock ⟨[⟨D, [⟨D, S, 5⟩], some ⟨D, S, 5⟩, 5⟩]⟩ ⟨D, S, 5⟩ true =
        .error .OutOfOrderSeq) ∧
    (update_nolock ⟨[⟨D, [⟨D, S, 5⟩], some ⟨D, S, 5⟩, 5⟩]⟩ ⟨D, S, 7⟩ true =
        .error .NonMonotonicSeq) ∧
    (update_nolock ⟨[⟨D, [⟨D, S, 5⟩], some ⟨D, S, 5⟩, 5⟩]⟩ ⟨D, S, 6⟩ true =
        .ok ⟨[⟨D, [⟨D, S, 6⟩], some ⟨D, S, 6⟩, 6⟩]⟩) := by
  rw [update_nolock_eq_of_find true hfind]
  refine ⟨?_, ?_, ?_, ?_, ?_, ?_, ?_⟩
  · by_cases h1 : ∃ p ∈ e.entries, g.seq_no ≤ p.seq_no
    · rw [if_pos ⟨rfl, h1⟩]
      simpa [ge_iff_le] using h1
    · rw [if_neg (by simpa using h1)]
      constructor
      · intro hcontra
        split at hcontra <;> simp_all
      · intro hcontra
        exact absurd (by simpa [ge_iff_le] using hcontra) h1
  · by_cases h1 : ∃ p ∈ e.entries, g.seq_no ≤ p.seq_no
    · rw [if_pos ⟨rfl, h1⟩]
      constructor
      · intro hcontra; cases hcontra
      · rintro ⟨hcontra, -⟩
        exact absurd (by simpa [ge_iff_le] using h1) hcontra
    · rw [if_neg (by simpa using h1)]
      by_cases h2 : g.seq_no = domain_max e + 1
      · rw [if_neg (by simp [h2])]
        constructor
        · intro hcontra; cases hcontra
        · rintro ⟨-, hcontra⟩; exact absurd h2 hcontra
      · rw [if_pos ⟨rfl, h2⟩]
        simp only [true_iff]
        exact ⟨by simpa [ge_iff_le] using h1, h2⟩
  · by_cases h1 : ∃ p ∈ e.entries, g.seq_no ≤ p.seq_no
    · rw [if_pos ⟨rfl, h1⟩]
      constructor
      · rintro ⟨st2, hcontra⟩; cases hcontra
      · rintro ⟨hcontra, -⟩
        exact absurd (by simpa [ge_iff_le] using h1) hcontra
    · rw [if_neg (by simpa using h1)]
      by_cases h2 : g.seq_no = domain_max e + 1
      · rw [if_neg (by simp [h2])]
        constructor
        · intro _
          exact ⟨by simpa [ge_iff_le] using h1, h2⟩
        · intro _
          exact ⟨_, rfl⟩
      · rw [if_pos ⟨rfl, h2⟩]
        constructor
        · rintro ⟨st2, hcontra⟩; cases hcontra
        · rintro ⟨-, hcontra⟩; exact absurd hcontra h2
  · rfl
  · simp [update_nolock, binlog_find_element, List.find?, domain_max]
  · simp [update_nolock, binlog_find_element, List.find?, domain_max]
  · simp [update_nolock, binlog_find_element, List.find?, domain_max,
      binlog_element.update_element, set_server_entry, set_domain_element]

/-- Witness for C2 at a concrete state holding `(1, 2, 5)`. -/
theorem binlog_strict_update_spec_witness :
    update_nolock ⟨[⟨1, [⟨1, 2, 5⟩], some ⟨1, 2, 5⟩, 5⟩]⟩ ⟨1, 2, 5⟩ true =
        .error .OutOfOrderSeq ↔
      ∃ p ∈ [rpl_gtid.mk 1 2 5], p.seq_no ≥ (5 : Nat) :=
  (binlog_strict_update_spec ⟨[⟨1, [⟨1, 2, 5⟩], some ⟨1, 2, 5⟩, 5⟩]⟩
    ⟨1, [⟨1, 2, 5⟩], some ⟨1, 2, 5⟩, 5⟩ ⟨1, 2, 5⟩ (by rfl) 1 2).1

/-! ## Replication slave state ledger (spec §4.3, source sql/rpl_gtid.h lines 117-267)

`rpl_slave_state` keeps one `element` per domain with a singly-linked
`list_element` list of GTIDs applied since the last purge, and the highest
seq_no seen in the domain. The inline members `element::grab_list` and
`element::add` are taken directly from the header (lines 168-173); the
operations implemented in sql/rpl_gtid.cc (`update`/`record_gtid`,
`gtid_grab_pending_delete_list`) are modelled from spec §4.3. The waiter-related
fields of `element` are modelled opaquely here; the wait protocol itself is
modelled separately below. -/

/-- Source struct `rpl_slave_state::list_element` (sql/rpl_gtid.h lines 120-133).
The `hton` engine pointer is opaque; `none` models a NULL hton. -/
structure list_element where
  sub_id : Nat
  domain_id : Nat
  server_id : Nat
  seq_no : Nat
  hton : Option Nat
deriving DecidableEq, Repr

/-- Source struct `rpl_slave_state::element` (sql/rpl_gtid.h lines 136-174);
the linked list is a Lean list, the waiter pointer and owner pointer are
opaque identifiers. -/
structure slave_element where
  list : List list_element
  domain_id : Nat
  highest_seq_no : Nat
  gtid_waiter : Option Nat
  min_wait_seq_no : Nat
  owner_rli : Option Nat
  owner_count : Nat
deriving DecidableEq, Repr

/-- Source: `list_element *grab_list() { list_element *l= list; list= NULL; return l; }`
(sql/rpl_gtid.h line 168). -/
def slave_element.grab_list (e : slave_element) : List list_element × slave_element :=
  (e.list, { e with list := [] })

/-- Source: `void add(list_element *l) { l->next= list; list= l; }`
(sql/rpl_gtid.h lines 169-173): push at the head of the list. -/
def slave_element.add (e : slave_element) (l : list_element) : slave_element :=
  { e with list := l :: e.list }

/-- Modelled from the spec: the per-domain effect of `SlaveState.record`
(spec §4.3; `rpl_slave_state::update`, sql/rpl_gtid.cc, not in the snapshot):
append `(sub_id, gtid, engine)` onto the domain list and update
`highest_seq_no = max(old, gtid.seq_no)`. -/
def slave_element.record (e : slave_element) (sub_id : Nat) (g : rpl_gtid)
    (hton : Option Nat) : slave_element :=
  { e.add ⟨sub_id, g.domain_id, g.server_id, g.seq_no, hton⟩ with
      highest_seq_no := max e.highest_seq_no g.seq_no }

/-- Source struct `rpl_slave_state` (sql/rpl_gtid.h lines 117-267); the domain
hash is modelled as a list of elements. -/
structure rpl_slave_state_t where
  elements : List slave_element
deriving DecidableEq, Repr

/-- Modelled from the spec: `rpl_slave_state::gtid_grab_pending_delete_list`
(decl. sql/rpl_gtid.h line 240, implementation not in the snapshot): atomically
detach the applied list of every domain into one flat list, leaving every
domain list empty. -/
def gtid_grab_pending_delete_list (st : rpl_slave_state_t) :
    List list_element × rpl_slave_state_t :=
  (st.elements.foldr (fun e acc => e.grab_list.1 ++ acc) [],
   ⟨st.elements.map (fun e => e.grab_list.2)⟩)

/-- A sequence of records applied to one domain element, oldest first. -/
def slave_element.record_seq (e : slave_element)
    (ops : List (Nat × rpl_gtid × Option Nat)) : slave_element :=
  ops.foldl (fun e op => e.record op.1 op.2.1 op.2.2) e

/-- Maximum of a list of naturals (0 when empty). -/
def list_max (l : List Nat) : Nat := l.foldr max 0

theorem record_seq_highest (e : slave_element)
    (ops : List (Nat × rpl_gtid × Option Nat)) :
    (e.record_seq ops).highest_seq_no =
      max e.highest_seq_no (list_max (ops.map (fun op => op.2.1.seq_no))) := by
  induction ops generalizing e with
  | nil => simp [slave_element.record_seq, list_max]
  | cons op t ih =>
    simp only [slave_element.record_seq, List.foldl_cons, List.map_cons] at *
    rw [ih]
    simp only [slave_element.record, slave_element.add, list_max, List.foldr_cons]
    omega

/-- C5: across any sequence of successful per-domain records, `highest_seq_no`
of the domain equals the running max; starting from a fresh domain
(`highest_seq_no = 0`) it equals the maximum seq_no among the recorded GTIDs,
and every single record is non-decreasing on `highest_seq_no`. -/
theorem slave_state_highest_seq_no_max (e : slave_element)
    (ops : List (Nat × rpl_gtid × Option Nat)) (sub : Nat) (g : rpl_gtid)
    (hton : Option Nat) (hfresh : e.highest_seq_no = 0) :
    (e.record_seq ops).highest_seq_no =
        list_max (ops.map (fun op => op.2.1.seq_no)) ∧
      (∀ e2 : slave_element, e2.highest_seq_no ≤ (e2.record sub g hton).highest_seq_no) ∧
      (e.record_seq ops).highest_seq_no ≤
        ((e.record_seq ops).record sub g hton).highest_seq_no := by
  refine ⟨?_, ?_, ?_⟩
  · rw [record_seq_highest, hfresh]
    omega
  · intro e2
    simp [slave_element.record, slave_element.add]
  · simp [slave_element.record, slave_element.add]

/-- Witness for C5 on a concrete three-record trace. -/
theorem slave_state_highest_seq_no_max_witness :
    (slave_element.record_seq ⟨[], 1, 0, none, 0, none, 0⟩
        [(1, ⟨1, 2, 5⟩, none), (2, ⟨1, 2, 9⟩, none), (3, ⟨1, 3, 7⟩, none)]).highest_seq_no =
      list_max [5, 9, 7] :=
  (slave_state_highest_seq_no_max ⟨[], 1, 0, none, 0, none, 0⟩
    [(1, ⟨1, 2, 5⟩, none), (2, ⟨1, 2, 9⟩, none), (3, ⟨1, 3, 7⟩, none)]
    4 ⟨1, 2, 10⟩ none rfl).1

theorem mem_grab_flat_list {l : List slave_element} {x : list_element} :
    x ∈ l.foldr (fun e acc => e.grab_list.1 ++ acc) [] ↔ ∃ e ∈ l, x ∈ e.list := by
  induction l with
  | nil => simp
  | cons a t ih =>
    simp only [List.foldr_cons, List.mem_append, ih]
    constructor
    · rintro (h | ⟨e0, he0, hx⟩)
      · exact ⟨a, by simp, by simpa [slave_element.grab_list] using h⟩
      · exact ⟨e0, by simp [he0], hx⟩
    · rintro ⟨e0, he0, hx⟩
      rcases List.mem_cons.mp he0 with rfl | he0
      · exact Or.inl (by simpa [slave_element.grab_list] using hx)
      · exact Or.inr ⟨e0, he0, hx⟩

/-- C8: `gtid_grab_pending_delete_list` detaches every domain list into one
flat list holding exactly the old entries and leaves every domain list empty,
so a later record starts a fresh one-entry list; `element::grab_list` returns
the previous list, clears the list pointer and changes no other field. -/
theorem grab_pending_delete_list_spec (st : rpl_slave_state_t) (e : slave_element) :
    (∀ e2 ∈ (gtid_grab_pending_delete_list st).2.elements, e2.list = []) ∧
    (∀ x : list_element,
        x ∈ (gtid_grab_pending_delete_list st).1 ↔ ∃ e2 ∈ st.elements, x ∈ e2.list) ∧
    (e.grab_list.1 = e.list ∧ e.grab_list.2.list = [] ∧
      e.grab_list.2.domain_id = e.domain_id ∧
      e.grab_list.2.highest_seq_no = e.highest_seq_no ∧
      e.grab_list.2.gtid_waiter = e.gtid_waiter ∧
      e.grab_list.2.min_wait_seq_no = e.min_wait_seq_no ∧
      e.grab_list.2.owner_rli = e.owner_rli ∧
      e.grab_list.2.owner_count = e.owner_count) ∧
    (∀ e2 ∈ (gtid_grab_pending_delete_list st).2.elements,
      ∀ (sub : Nat) (g : rpl_gtid) (hton : Option Nat),
        (e2.record sub g hton).list =
          [⟨sub, g.domain_id, g.server_id, g.seq_no, hton⟩]) := by
  refine ⟨?_, ?_, ?_, ?_⟩
  · intro e2 he2
    rcases List.mem_map.mp he2 with ⟨e0, _, rfl⟩
    rfl
  · intro x
    exact mem_grab_flat_list
  · exact ⟨rfl, rfl, rfl, rfl, rfl, rfl, rfl, rfl⟩
  · intro e2 he2 sub g hton
    rcases List.mem_map.mp he2 with ⟨e0, _, rfl⟩
    rfl

/-- Witness for C8 on a concrete two-domain state. -/
theorem grab_pending_delete_list_spec_witness :
    ∀ e2 ∈ (gtid_grab_pending_delete_list
        ⟨[⟨[⟨1, 1, 2, 5, none⟩], 1, 5, none, 0, none, 0⟩,
          ⟨[⟨2, 3, 2, 7, some 1⟩], 3, 7, none, 0, none, 0⟩]⟩).2.elements,
      e2.list = [] :=
  (grab_pending_delete_list_spec
    ⟨[⟨[⟨1, 1, 2, 5, none⟩], 1, 5, none, 0, none, 0⟩,
      ⟨[⟨2, 3, 2, 7, some 1⟩], 3, 7, none, 0, none, 0⟩]⟩
    ⟨[⟨1, 1, 2, 5, none⟩], 1, 5, none, 0, none, 0⟩).1

/-! ## wsrep auto-increment variable selection (source sql/wsrep_thd.cc lines 689-704)

`wsrep_thd_auto_increment_variables` is fully present in the snapshot. The
wsrep enums live in a header outside the snapshot; only the two values the
function compares against are semantically relevant. -/

/-- wsrep execution mode of a THD (values used by sql/wsrep_thd.cc). -/
inductive wsrep_exec_mode where
  | LOCAL_STATE
  | REPL_RECV
  | TOTAL_ORDER
  | LOCAL_COMMIT
deriving DecidableEq, Repr

/-- wsrep conflict state of a THD (values used by sql/wsrep_thd.cc). -/
inductive wsrep_conflict_state where
  | NO_CONFLICT
  | MUST_ABORT
  | ABORTING
  | ABORTED
  | MUST_REPLAY
  | REPLAYING
  | RETRY_AUTOCOMMIT
  | CERT_FAILURE
deriving DecidableEq, Repr

/-- The two session variables read by the function. -/
structure auto_increment_variables where
  auto_increment_offset : Nat
  auto_increment_increment : Nat
deriving DecidableEq, Repr

/-- The THD fields consumed by `wsrep_thd_auto_increment_variables`; the
session-variable field is `variables` in the source (a reserved word here). -/
structure wsrep_thd_state where
  wsrep_exec_mode : wsrep_exec_mode
  wsrep_conflict_state : wsrep_conflict_state
  session_variables : auto_increment_variables
deriving DecidableEq, Repr

/-- Source: `wsrep_thd_auto_increment_variables` (sql/wsrep_thd.cc lines
689-704): for an applier thread (`wsrep_exec_mode == REPL_RECV` and
`wsrep_conflict_state != REPLAYING`) return the global settings, otherwise
the session's own settings. Returns `(offset, increment)`. -/
def wsrep_thd_auto_increment_variables
    (global_system_variables : auto_increment_variables)
    (thd : wsrep_thd_state) : Nat × Nat :=
  if thd.wsrep_exec_mode = .REPL_RECV ∧ thd.wsrep_conflict_state ≠ .REPLAYING then
    (global_system_variables.auto_increment_offset,
     global_system_variables.auto_increment_increment)
  else
    (thd.session_variables.auto_increment_offset,
     thd.session_variables.auto_increment_increment)

/-- C9: `wsrep_thd_auto_increment_variables` returns the global pair exactly
for applier threads (REPL_RECV and not REPLAYING) and the session pair in
every other case. -/
theorem wsrep_thd_auto_increment_variables_spec
    (gv : auto_increment_variables) (thd : wsrep_thd_state) :
    (thd.wsrep_exec_mode = .REPL_RECV ∧ thd.wsrep_conflict_state ≠ .REPLAYING →
      wsrep_thd_auto_increment_variables gv thd =
        (gv.auto_increment_offset, gv.auto_increment_increment)) ∧
    (¬ (thd.wsrep_exec_mode = .REPL_RECV ∧ thd.wsrep_conflict_state ≠ .REPLAYING) →
      wsrep_thd_auto_increment_variables gv thd =
        (thd.session_variables.auto_increment_offset, thd.session_variables.auto_increment_increment)) := by
  constructor
  · intro h
    unfold wsrep_thd_auto_increment_variables
    rw [if_pos h]
  · intro h
    unfold wsrep_thd_auto_increment_variables
    rw [if_neg h]

/-- Witness for C9: an applier THD gets the global pair. -/
theorem wsrep_thd_auto_increment_variables_spec_witness :
    wsrep_thd_auto_increment_variables ⟨5, 10⟩ ⟨.REPL_RECV, .NO_CONFLICT, ⟨1, 2⟩⟩ =
      (5, 10) :=
  (wsrep_thd_auto_increment_variables_spec ⟨5, 10⟩
    ⟨.REPL_RECV, .NO_CONFLICT, ⟨1, 2⟩⟩).1 (by decide)

/-! ## GTID event filters (spec §4.5, source sql/rpl_gtid.h lines 389-824)

`Gtid_event_filter` and its implementations are declared in the header; the
trivial filters (`Accept_all_gtid_filter::exclude`, `Reject_all`,
`Intersecting_gtid_event_filter::has_finished`) are inline in the header and
embedded directly. The stateful bodies (`Window_gtid_event_filter::exclude`,
`Intersecting_gtid_event_filter::exclude`) are in sql/rpl_gtid.cc, not in the
snapshot, and are modelled from spec §4.5 and the header comments
(sql/rpl_gtid.h lines 470-485, 798-801). The filter tree is a tagged variant
as in spec §3; filters are stateful, so `exclude` returns the decision and
the updated filter. -/

/-- Source: `WARN_GTID_SEQUENCE_NUMBER_OUT_OF_ORDER= 0x1` (sql/rpl_gtid.h
line 546). -/
def WARN_GTID_SEQUENCE_NUMBER_OUT_OF_ORDER : Nat := 1

/-- Modelled from the spec: flag for the strict-mode `stop_overshoot` warning
(spec §4.5; its numeric value is not in the snapshot). -/
def WARN_GTID_STOP_OVERSHOOT : Nat := 2

/-- Source fields of `Window_gtid_event_filter` (sql/rpl_gtid.h lines 542-595).
The controller boolean `*m_is_gtid_strict_mode` is modelled by value. -/
structure window_state where
  m_has_start : Bool
  m_has_stop : Bool
  m_is_active : Bool
  m_has_passed : Bool
  m_start : rpl_gtid
  m_stop : rpl_gtid
  last_gtid_seen : rpl_gtid
  m_warning_flags : Nat
  m_is_gtid_strict_mode : Bool
deriving DecidableEq, Repr

/-- Source constructor state: inactive, no bounds, no warnings
(sql/rpl_gtid.h lines 489, 521-531). -/
def window_init (strict : Bool) : window_state :=
  ⟨false, false, false, false, ⟨0, 0, 0⟩, ⟨0, 0, 0⟩, ⟨0, 0, 0⟩, 0, strict⟩

/-- Source: `set_start_gtid` records the exclusive start bound
(decl. sql/rpl_gtid.h line 501). -/
def set_start_gtid (w : window_state) (g : rpl_gtid) : window_state :=
  { w with m_has_start := true, m_start := g }

/-- Source: `set_stop_gtid` records the inclusive stop bound
(decl. sql/rpl_gtid.h line 508). -/
def set_stop_gtid (w : window_state) (g : rpl_gtid) : window_state :=
  { w with m_has_stop := true, m_stop := g }

/-- Modelled from the spec: `Window_gtid_event_filter::exclude`
(decl. sql/rpl_gtid.h line 492; implementation in sql/rpl_gtid.cc is not in
the snapshot). Spec §4.5 and header comment lines 470-485: the window is
inactive initially and activates on the first GTID of the start identifier
with seq strictly above the start (start exclusive; a window with no start
begins active); while active every GTID of the identifier passes, regardless
of server_id; the GTID matching the stop (server, seq) exactly is included
and moves the window to Passed; in strict mode a GTID whose seq overshoots
the stop closes the window with a `stop_overshoot` warning; an out-of-order
seq inside the window raises a non-fatal warning. -/
def window_exclude (w : window_state) (g : rpl_gtid) : Bool × window_state :=
  if w.m_has_passed then (true, w)
  else
    let entering : Bool :=
      !w.m_has_start ||
        (g.domain_id == w.m_start.domain_id && g.server_id == w.m_start.server_id &&
          w.m_start.seq_no < g.seq_no)
    if w.m_is_active || entering then
      let flags :=
        if w.m_is_active && g.seq_no ≤ w.last_gtid_seen.seq_no then
          w.m_warning_flags ||| WARN_GTID_SEQUENCE_NUMBER_OUT_OF_ORDER
        else w.m_warning_flags
      if w.m_has_stop && g.server_id == w.m_stop.server_id &&
          g.seq_no == w.m_stop.seq_no then
        (false, { w with m_is_active := false, m_has_passed := true,
                         last_gtid_seen := g, m_warning_flags := flags })
      else if w.m_is_gtid_strict_mode && w.m_has_stop &&
          w.m_stop.seq_no < g.seq_no then
        (true, { w with m_is_active := false, m_has_passed := true,
                        last_gtid_seen := g,
                        m_warning_flags := flags ||| WARN_GTID_STOP_OVERSHOOT })
      else
        (false, { w with m_is_active := true, last_gtid_seen := g,
                         m_warning_flags := flags })
    else (true, w)

/-- The filter tree as a tagged variant (spec §3 FilterNode): accept-all,
reject-all, window and intersection nodes (source classes
`Accept_all_gtid_filter`, `Reject_all_gtid_filter`,
`Window_gtid_event_filter`, `Intersecting_gtid_event_filter`,
sql/rpl_gtid.h lines 445-824). -/
inductive Gtid_event_filter where
  | accept_all
  | reject_all
  | window (w : window_state)
  | intersecting (f1 f2 : Gtid_event_filter)
deriving DecidableEq, Repr

/-- Filter decision, threading the updated filter state.
Accept-all: `exclude` returns FALSE (sql/rpl_gtid.h line 450).
Reject-all: `exclude` returns TRUE (line 464).
Window: modelled from the spec (see `window_exclude`).
Intersection: modelled from the spec and the header comment lines 798-801:
excluded iff either child excludes. -/
def Gtid_event_filter.exclude :
    Gtid_event_filter → rpl_gtid → Bool × Gtid_event_filter
  | .accept_all, _ => (false, .accept_all)
  | .reject_all, _ => (true, .reject_all)
  | .window w, g =>
    let r := window_exclude w g
    (r.1, .window r.2)
  | .intersecting f1 f2, g =>
    let r1 := f1.exclude g
    let r2 := f2.exclude g
    (r1.1 || r2.1, .intersecting r1.2 r2.2)

/-- Completion test.
Accept-all and reject-all never finish (sql/rpl_gtid.h lines 452, 466).
Window: finished once passed (spec §4.5).
Intersection: source inline `m_filter1->has_finished() && m_filter2->has_finished()`
(sql/rpl_gtid.h lines 808-812). -/
def Gtid_event_filter.has_finished : Gtid_event_filter → Bool
  | .accept_all => false
  | .reject_all => false
  | .window w => w.m_has_passed
  | .intersecting f1 f2 => f1.has_finished && f2.has_finished

/-- Stream a list of GTIDs through a stateful filter, collecting decisions. -/
def run_exclude : Gtid_event_filter → List rpl_gtid → List Bool × Gtid_event_filter
  | f, [] => ([], f)
  | f, g :: gs =>
    let r := f.exclude g
    let rest := run_exclude r.2 gs
    (r.1 :: rest.1, rest.2)

/-- C4: the Window filter with `start=0-1-0` (exclusive), `stop=0-1-2`
(inclusive) includes `0-1-1, 0-2-1, 0-1-2` and excludes `0-2-2, 0-1-3` from
the stream, finishing after `0-1-2`; and in general, while a window is active
any GTID of the window's domain passes — even with a server_id different from
the bounds — as long as it does not hit the stop (or, in strict mode,
overshoot it). -/
theorem window_filter_spec (w : window_state) (g : rpl_gtid)
    (hact : w.m_is_active = true) (hpass : w.m_has_passed = false)
    (hdom : g.domain_id = w.m_start.domain_id)
    (hstop : w.m_has_stop = true →
      g.server_id ≠ w.m_stop.server_id ∧
        (w.m_is_gtid_strict_mode = true → g.seq_no ≤ w.m_stop.seq_no)) :
    (window_exclude w g).1 = false ∧
    (run_exclude
        (.window (set_stop_gtid (set_start_gtid (window_init false) ⟨0, 1, 0⟩) ⟨0, 1, 2⟩))
        [⟨0, 1, 1⟩, ⟨0, 2, 1⟩, ⟨0, 1, 2⟩, ⟨0, 2, 2⟩, ⟨0, 1, 3⟩]).1 =
      [false, false, false, true, true] ∧
    (run_exclude
        (.window (set_stop_gtid (set_start_gtid (window_init false) ⟨0, 1, 0⟩) ⟨0, 1, 2⟩))
        [⟨0, 1, 1⟩, ⟨0, 2, 1⟩, ⟨0, 1, 2⟩]).2.has_finished = true := by
  refine ⟨?_, by decide, by decide⟩
  by_cases hs : w.m_has_stop = true
  · rcases hstop hs with ⟨hserver, hstrict⟩
    by_cases hm : w.m_is_gtid_strict_mode = true
    · have hle := hstrict hm
      simp [window_exclude, hpass, hact, hs, hm, beq_eq_false_iff_ne.mpr hserver,
        Nat.not_lt.mpr hle]
    · simp [window_exclude, hpass, hact, hs, beq_eq_false_iff_ne.mpr hserver, hm]
  · simp [window_exclude, hpass, hact, hs]

/-- Witness for C4: an active window passes a same-domain GTID with a foreign
server_id. -/
theorem window_filter_spec_witness :
    (window_exclude
        ⟨true, true, true, false, ⟨0, 1, 0⟩, ⟨0, 1, 2⟩, ⟨0, 1, 1⟩, 0, false⟩
        ⟨0, 2, 1⟩).1 = false :=
  (window_filter_spec
    ⟨true, true, true, false, ⟨0, 1, 0⟩, ⟨0, 1, 2⟩, ⟨0, 1, 1⟩, 0, false⟩
    ⟨0, 2, 1⟩ rfl rfl rfl (by decide)).1

/-- C7: the intersecting filter excludes a GTID exactly when either child
excludes it, and is finished exactly when both children are finished
(sql/rpl_gtid.h lines 798-812). -/
theorem intersecting_filter_spec (f1 f2 : Gtid_event_filter) (g : rpl_gtid) :
    ((Gtid_event_filter.intersecting f1 f2).exclude g).1 =
        ((f1.exclude g).1 || (f2.exclude g).1) ∧
      (Gtid_event_filter.intersecting f1 f2).has_finished =
        (f1.has_finished && f2.has_finished) :=
  ⟨rfl, rfl⟩

/-! ## MASTER_GTID_WAIT registry (spec §4.4, source sql/rpl_gtid.h lines 53-101)

`gtid_waiting` keeps, per domain, a priority queue (min-heap on
`wait_seq_no`) of `queue_element` waiters, with a single *small waiter*
responsible for watching the applied position. The operations
(`register_in_wait_queue`, `process_wait_hash`, `promote_new_waiter`,
`remove_from_wait_queue`) are implemented in sql/rpl_gtid.cc, which is not in
the snapshot; they are modelled from spec §4.4 as a transition system. The
waiter arena is a function from allocation index to `queue_element`
(spec §9: arena + index); every transition is one critical section under
LOCK_gtid_waiting, so a step of the relation is atomic by construction. -/

/-- Source struct `gtid_waiting::queue_element` (sql/rpl_gtid.h lines 71-86):
the waited-for seq_no, the owning session (an opaque id here), the
small-waiter responsibility flag and the completion flag. The `queue_idx`
back-pointer is represented by the position in the queue list. -/
structure queue_element where
  wait_seq_no : Nat
  thd : Nat
  do_small_wait : Bool
  done : Bool
deriving DecidableEq, Repr

/-- A freshly allocated, unused arena slot. -/
def queue_element_init : queue_element := ⟨0, 0, false, false⟩

/-- Per-domain wait state: the waiter arena (`next` slots allocated), the ids
currently in the priority queue in ascending `wait_seq_no` order, the highest
seq_no applied in the domain so far, and the cached `min_wait_seq_no`
(spec §3 DomainState, `none` = ∞). -/
structure domain_wait_state where
  arena : Nat → queue_element
  next : Nat
  queue : List Nat
  highest_seq_no : Nat
  min_wait_seq_no : Option Nat

/-- Initial (freshly created) domain entry: empty queue, nothing applied. -/
def domain_wait_init : domain_wait_state :=
  { arena := fun _ => queue_element_init, next := 0, queue := [],
    highest_seq_no := 0, min_wait_seq_no := none }

/-- Whether some enqueued waiter currently holds the small-wait
responsibility. -/
def has_small (s : domain_wait_state) : Bool :=
  s.queue.any (fun i => (s.arena i).do_small_wait)

/-- Insertion into the seq_no-ordered queue (the min-heap of spec §4.4). -/
def insert_by_seq (arena : Nat → queue_element) (id : Nat) : List Nat → List Nat
  | [] => [id]
  | j :: q =>
    if (arena id).wait_seq_no < (arena j).wait_seq_no then id :: j :: q
    else j :: insert_by_seq arena id q

/-- The cached minimum: the head's wait_seq_no, or ∞ (`none`) when empty. -/
def queue_min_wait (arena : Nat → queue_element) (q : List Nat) : Option Nat :=
  q.head?.map (fun i => (arena i).wait_seq_no)

/-- Modelled from the spec: Register (spec §4.4 steps 1-5), under the registry
lock: allocate a waiter with `done = false` and
`small = (no current small waiter)`, insert it into the per-domain priority
queue, update `min_wait_seq_no`. (The already-satisfied case returns without
enqueueing and without mutating, so it needs no transition.) -/
def register_waiter (s : domain_wait_state) (thd wseq : Nat) : domain_wait_state :=
  let id := s.next
  let w : queue_element := ⟨wseq, thd, !has_small s, false⟩
  let arena2 := fun i => if i = id then w else s.arena i
  let q2 := insert_by_seq arena2 id s.queue
  { arena := arena2, next := id + 1, queue := q2,
    highest_seq_no := s.highest_seq_no,
    min_wait_seq_no := queue_min_wait arena2 q2 }

/-- Modelled from the spec: OnApply (spec §4.4, called from SlaveState.record):
the applied position advances to the max; the cv signal carries no state. -/
def on_apply (s : domain_wait_state) (seq : Nat) : domain_wait_state :=
  { s with highest_seq_no := max s.highest_seq_no seq }

/-- Mark the given waiters complete: `done = true`, responsibility cleared. -/
def mark_done (a : Nat → queue_element) (ids : List Nat) : Nat → queue_element :=
  fun i => if i ∈ ids then { a i with done := true, do_small_wait := false } else a i

/-- Modelled from the spec: promotion (spec §4.4 wakeup step 4 /
`promote_new_waiter`): mark the current queue head as the new small waiter;
nothing to do when the queue is empty. -/
def promote_head (a : Nat → queue_element) (q : List Nat) : Nat → queue_element :=
  match q.head? with
  | some h => fun i => if i = h then { a i with do_small_wait := true } else a i
  | none => a

/-- Modelled from the spec: the small-waiter wakeup path
(spec §4.4 / `process_wait_hash`), one critical section: pop from the head
while `head.wait_seq_no ≤ highest_seq_no`, marking each popped waiter
`done = true` (setting `done` and removing happen together, under the lock);
then, if the small waiter itself was popped, promote the new head;
finally recompute `min_wait_seq_no`. -/
def process_wait_queue (s : domain_wait_state) : domain_wait_state :=
  let popped := s.queue.takeWhile (fun i => decide ((s.arena i).wait_seq_no ≤ s.highest_seq_no))
  let rest := s.queue.dropWhile (fun i => decide ((s.arena i).wait_seq_no ≤ s.highest_seq_no))
  let small_popped := popped.any (fun i => (s.arena i).do_small_wait)
  let a2 := mark_done s.arena popped
  let a3 := if small_popped then promote_head a2 rest else a2
  { s with arena := a3, queue := rest, min_wait_seq_no := queue_min_wait a3 rest }

/-- Modelled from the spec: cancellation / timeout
(spec §4.4 / `remove_from_wait_queue`), one critical section: when `done` is
still false, remove the waiter from the queue and complete it (the source
`remove_from_wait_queue` does `queue_remove` and `elem->done= true` together
under the lock); if it was the small waiter, promote a successor; recompute
`min_wait_seq_no`. -/
def cancel_waiter (s : domain_wait_state) (id : Nat) : domain_wait_state :=
  let was_small := (s.arena id).do_small_wait
  let rest := s.queue.filter (fun j => decide (j ≠ id))
  let a2 := mark_done s.arena [id]
  let a3 := if was_small then promote_head a2 rest else a2
  { s with arena := a3, queue := rest, min_wait_seq_no := queue_min_wait a3 rest }

/-- One atomic critical section on a domain's wait state (spec §4.4). -/
inductive wait_step : domain_wait_state → domain_wait_state → Prop where
  | register (s : domain_wait_state) (thd wseq : Nat)
      (h : s.highest_seq_no < wseq) : wait_step s (register_waiter s thd wseq)
  | apply_event (s : domain_wait_state) (seq : Nat) : wait_step s (on_apply s seq)
  | wakeup (s : domain_wait_state) : wait_step s (process_wait_queue s)
  | cancel (s : domain_wait_state) (id : Nat) (h1 : id < s.next)
      (h2 : (s.arena id).done = false) : wait_step s (cancel_waiter s id)

/-- Source struct `gtid_waiting` (sql/rpl_gtid.h lines 64-101): the hash from
domain_id to its wait queue, modelled as a total function (absent domains are
fresh empty entries, as `get_entry` creates them on demand). -/
structure gtid_waiting_state where
  domains : Nat → domain_wait_state

/-- Initial registry: every domain entry fresh. -/
def gtid_waiting_init : gtid_waiting_state := ⟨fun _ => domain_wait_init⟩

/-- A registry transition: one critical section acting on one domain. -/
inductive registry_step : gtid_waiting_state → gtid_waiting_state → Prop where
  | at_domain (st : gtid_waiting_state) (d : Nat) (s2 : domain_wait_state)
      (h : wait_step (st.domains d) s2) :
      registry_step st ⟨fun x => if x = d then s2 else st.domains x⟩

/-- Reachable registry states. -/
inductive registry_reachable : gtid_waiting_state → Prop where
  | init : registry_reachable gtid_waiting_init
  | step {st st2 : gtid_waiting_state} (h1 : registry_reachable st)
      (h2 : registry_step st st2) : registry_reachable st2

/-- The invariant of one domain wait queue: queue ids are distinct allocated
slots; a waiter is enqueued iff not done; small-wait responsibility is unique,
and present whenever the queue is non-empty. -/
def wait_queue_inv (s : domain_wait_state) : Prop :=
  s.queue.Nodup ∧
  (∀ id ∈ s.queue, id < s.next) ∧
  (∀ id, id < s.next → (id ∈ s.queue ↔ (s.arena id).done = false)) ∧
  (∀ j ∈ s.queue, ∀ k ∈ s.queue,
    (s.arena j).do_small_wait = true → (s.arena k).do_small_wait = true → j = k) ∧
  (s.queue ≠ [] → ∃ j ∈ s.queue, (s.arena j).do_small_wait = true)

theorem mem_insert_by_seq {a : Nat → queue_element} {id i : Nat} {q : List Nat} :
    i ∈ insert_by_seq a id q ↔ i = id ∨ i ∈ q := by
  induction q with
  | nil => simp [insert_by_seq]
  | cons j t ih =>
    simp only [insert_by_seq]
    split
    · simp only [List.mem_cons]
      try tauto
    · simp only [List.mem_cons, ih]
      try tauto

theorem nodup_insert_by_seq {a : Nat → queue_element} {id : Nat} {q : List Nat}
    (hid : id ∉ q) (hq : q.Nodup) : (insert_by_seq a id q).Nodup := by
  induction q with
  | nil => simp [insert_by_seq]
  | cons j t ih =>
    rw [List.nodup_cons] at hq
    simp only [insert_by_seq]
    split
    · rw [List.nodup_cons]
      exact ⟨hid, List.nodup_cons.mpr hq⟩
    · rw [List.nodup_cons]
      constructor
      · intro hjm
        rcases mem_insert_by_seq.mp hjm with rfl | hjt
        · exact hid (List.mem_cons_self _ _)
        · exact hq.1 hjt
      · exact ih (fun h => hid (List.mem_cons_of_mem _ h)) hq.2

theorem wait_queue_inv_register (s : domain_wait_state) (thd wseq : Nat)
    (hinv : wait_queue_inv s) : wait_queue_inv (register_waiter s thd wseq) := by
  obtain ⟨hnd, hbound, hdone, huniq, hex⟩ := hinv
  have hid_not_mem : s.next ∉ s.queue := fun h => absurd (hbound _ h) (lt_irrefl _)
  unfold wait_queue_inv register_waiter
  simp only
  set w : queue_element := ⟨wseq, thd, !has_small s, false⟩ with hw
  have ha_old : ∀ i : Nat, i ≠ s.next → (if i = s.next then w else s.arena i) = s.arena i :=
    fun i hi => if_neg hi
  have ha_mem : ∀ i ∈ s.queue, (if i = s.next then w else s.arena i) = s.arena i :=
    fun i hi => ha_old i (fun hcontra => hid_not_mem (hcontra ▸ hi))
  refine ⟨?_, ?_, ?_, ?_, ?_⟩
  · exact nodup_insert_by_seq hid_not_mem hnd
  · intro i hi
    rcases mem_insert_by_seq.mp hi with rfl | hi
    · omega
    · exact Nat.lt_succ_of_lt (hbound i hi)
  · intro i hi
    rcases Nat.lt_succ_iff_lt_or_eq.mp hi with hlt | rfl
    · rw [mem_insert_by_seq, ha_old i (Nat.ne_of_lt hlt), hdone i hlt]
      constructor
      · rintro (rfl | h)
        · exact absurd hlt (lt_irrefl _)
        · exact h
      · exact Or.inr
    · rw [mem_insert_by_seq, if_pos rfl]
      simp [hw]
  · intro j hj k hk hfj hfk
    rcases mem_insert_by_seq.mp hj with rfl | hj <;>
      rcases mem_insert_by_seq.mp hk with rfl | hk
    · rfl
    · exfalso
      rw [ha_mem k hk] at hfk
      have hsm : has_small s = true := List.any_eq_true.mpr ⟨k, hk, hfk⟩
      rw [if_pos rfl, hw] at hfj
      simp [hsm] at hfj
    · exfalso
      rw [ha_mem j hj] at hfj
      have hsm : has_small s = true := List.any_eq_true.mpr ⟨j, hj, hfj⟩
      rw [if_pos rfl, hw] at hfk
      simp [hsm] at hfk
    · rw [ha_mem j hj] at hfj
      rw [ha_mem k hk] at hfk
      exact huniq j hj k hk hfj hfk
  · intro hne
    by_cases hsm : has_small s = true
    · rcases List.any_eq_true.mp hsm with ⟨j, hj, hfj⟩
      refine ⟨j, mem_insert_by_seq.mpr (Or.inr hj), ?_⟩
      rw [ha_mem j hj]
      exact hfj
    · refine ⟨s.next, mem_insert_by_seq.mpr (Or.inl rfl), ?_⟩
      rw [if_pos rfl, hw]
      simp only [Bool.not_eq_true] at hsm
      simp [hsm]

theorem wait_queue_inv_on_apply (s : domain_wait_state) (seq : Nat)
    (hinv : wait_queue_inv s) : wait_queue_inv (on_apply s seq) := hinv

theorem mark_done_mem {a : Nat → queue_element} {ids : List Nat} {i : Nat}
    (h : i ∈ ids) : mark_done a ids i = { a i with done := true, do_small_wait := false } := by
  simp [mark_done, h]

theorem mark_done_not_mem {a : Nat → queue_element} {ids : List Nat} {i : Nat}
    (h : i ∉ ids) : mark_done a ids i = a i := by
  simp [mark_done, h]

theorem promote_head_done (a : Nat → queue_element) (q : List Nat) (i : Nat) :
    (promote_head a q i).done = (a i).done := by
  unfold promote_head
  cases q with
  | nil => rfl
  | cons h0 t =>
    simp only [List.head?_cons]
    split <;> rfl

theorem promote_head_cons (a : Nat → queue_element) (h0 : Nat) (t : List Nat) (i : Nat) :
    promote_head a (h0 :: t) i =
      if i = h0 then { a i with do_small_wait := true } else a i := rfl

theorem wait_queue_inv_wakeup (s : domain_wait_state) (hinv : wait_queue_inv s) :
    wait_queue_inv (process_wait_queue s) := by
  obtain ⟨hnd, hbound, hdone, huniq, hex⟩ := hinv
  unfold wait_queue_inv process_wait_queue
  simp only
  set p : Nat → Bool := fun i => decide ((s.arena i).wait_seq_no ≤ s.highest_seq_no) with hp
  set popped := s.queue.takeWhile p with hpoppedeq
  set rest := s.queue.dropWhile p with hresteq
  set a2 := mark_done s.arena popped with ha2eq
  have hsplit : popped ++ rest = s.queue := List.takeWhile_append_dropWhile p s.queue
  have hndq : (popped ++ rest).Nodup := by rw [hsplit]; exact hnd
  have hrest_nd : rest.Nodup := (List.nodup_append.mp hndq).2.1
  have hdisj : ∀ i ∈ popped, i ∉ rest := by
    intro i hip hir
    exact (List.nodup_append.mp hndq).2.2 hip hir
  have hmemq : ∀ i : Nat, i ∈ s.queue ↔ (i ∈ popped ∨ i ∈ rest) := by
    intro i
    rw [← hsplit, List.mem_append]
  have hbound2 : ∀ i ∈ rest, i < s.next := fun i hi => hbound i ((hmemq i).mpr (Or.inr hi))
  have hdone2 : ∀ i, i < s.next → (i ∈ rest ↔ (a2 i).done = false) := by
    intro i hi
    by_cases hip : i ∈ popped
    · have hdt : (a2 i).done = true := by rw [ha2eq, mark_done_mem hip]
      rw [hdt]
      constructor
      · intro hir
        exact absurd hir (hdisj i hip)
      · intro h
        exact Bool.noConfusion h
    · have ha : a2 i = s.arena i := by rw [ha2eq]; exact mark_done_not_mem hip
      rw [ha, ← hdone i hi]
      constructor
      · intro hir
        exact (hmemq i).mpr (Or.inr hir)
      · intro hq
        rcases (hmemq i).mp hq with h | h
        · exact absurd h hip
        · exact h
  have hflag2 : ∀ i ∈ rest, (a2 i).do_small_wait = (s.arena i).do_small_wait := by
    intro i hir
    rw [ha2eq, mark_done_not_mem (fun hip => hdisj i hip hir)]
  by_cases hsp : (popped.any fun i => (s.arena i).do_small_wait) = true
  · rw [if_pos hsp]
    have hnone : ∀ i ∈ rest, (a2 i).do_small_wait = false := by
      intro i hir
      rcases List.any_eq_true.mp hsp with ⟨f, hf, hff⟩
      rw [hflag2 i hir]
      by_contra hcontra
      rw [Bool.not_eq_false] at hcontra
      have hif : i = f :=
        huniq i ((hmemq i).mpr (Or.inr hir)) f ((hmemq f).mpr (Or.inl hf)) hcontra hff
      have hi_pop : i ∈ popped := by rw [hif]; exact hf
      exact hdisj i hi_pop hir
    refine ⟨hrest_nd, hbound2, ?_, ?_, ?_⟩
    · intro i hi
      rw [promote_head_done]
      exact hdone2 i hi
    · cases hh : rest.head? with
      | none =>
        have hre : rest = [] := List.head?_eq_none_iff.mp hh
        intro j hj
        rw [hre] at hj
        cases hj
      | some h0 =>
        have hval : ∀ i, promote_head a2 rest i =
            if i = h0 then { a2 i with do_small_wait := true } else a2 i := by
          intro i
          unfold promote_head
          rw [hh]
        intro j hj k hk hfj hfk
        rw [hval j] at hfj
        rw [hval k] at hfk
        by_cases hj0 : j = h0
        · by_cases hk0 : k = h0
          · rw [hj0, hk0]
          · rw [if_neg hk0] at hfk
            rw [hnone k hk] at hfk
            exact Bool.noConfusion hfk
        · rw [if_neg hj0] at hfj
          rw [hnone j hj] at hfj
          exact Bool.noConfusion hfj
    · cases hh : rest.head? with
      | none =>
        intro hne
        exact absurd (List.head?_eq_none_iff.mp hh) hne
      | some h0 =>
        have hval : ∀ i, promote_head a2 rest i =
            if i = h0 then { a2 i with do_small_wait := true } else a2 i := by
          intro i
          unfold promote_head
          rw [hh]
        intro hne
        obtain ⟨x, t, hxt⟩ := List.exists_cons_of_ne_nil hne
        have hx0 : x = h0 := by
          rw [hxt] at hh
          simpa using hh
        refine ⟨h0, ?_, ?_⟩
        · rw [hxt, ← hx0]
          exact List.mem_cons_self _ _
        · rw [hval h0, if_pos rfl]
  · rw [if_neg hsp]
    refine ⟨hrest_nd, hbound2, hdone2, ?_, ?_⟩
    · intro j hj k hk hfj hfk
      rw [ha2eq, mark_done_not_mem (fun hip => hdisj j hip hj)] at hfj
      rw [ha2eq, mark_done_not_mem (fun hip => hdisj k hip hk)] at hfk
      exact huniq j ((hmemq j).mpr (Or.inr hj)) k ((hmemq k).mpr (Or.inr hk)) hfj hfk
    · intro hne
      have hq : s.queue ≠ [] := by
        intro hq0
        rw [← hsplit] at hq0
        exact hne (List.append_eq_nil.mp hq0).2
      rcases hex hq with ⟨f, hf, hff⟩
      rcases (hmemq f).mp hf with hfp | hfr
      · exact absurd (List.any_eq_true.mpr ⟨f, hfp, hff⟩) hsp
      · refine ⟨f, hfr, ?_⟩
        rw [ha2eq, mark_done_not_mem (fun hip => hdisj f hip hfr)]
        exact hff

theorem wait_queue_inv_cancel (s : domain_wait_state) (id : Nat) (h1 : id < s.next)
    (h2 : (s.arena id).done = false) (hinv : wait_queue_inv s) :
    wait_queue_inv (cancel_waiter s id) := by
  obtain ⟨hnd, hbound, hdone, huniq, hex⟩ := hinv
  have hidq : id ∈ s.queue := (hdone id h1).mpr h2
  unfold wait_queue_inv cancel_waiter
  simp only
  set rest := s.queue.filter (fun j => decide (j ≠ id)) with hresteq
  set a2 := mark_done s.arena [id] with ha2eq
  have hmem_rest : ∀ i : Nat, i ∈ rest ↔ (i ∈ s.queue ∧ i ≠ id) := by
    intro i
    rw [hresteq, List.mem_filter]
    simp
  have hid_not : id ∉ rest := fun h => ((hmem_rest id).mp h).2 rfl
  have hrest_nd : rest.Nodup := by rw [hresteq]; exact hnd.filter _
  have hbound2 : ∀ i ∈ rest, i < s.next := fun i hi => hbound i ((hmem_rest i).mp hi).1
  have ha2_not : ∀ i : Nat, i ≠ id → a2 i = s.arena i := by
    intro i hi
    rw [ha2eq, mark_done_not_mem (by simp [hi])]
  have hdone2 : ∀ i, i < s.next → (i ∈ rest ↔ (a2 i).done = false) := by
    intro i hi
    by_cases hii : i = id
    · subst hii
      have hdt : (a2 i).done = true := by rw [ha2eq, mark_done_mem (by simp)]
      rw [hdt]
      constructor
      · intro h
        exact absurd h hid_not
      · intro h
        exact Bool.noConfusion h
    · rw [ha2_not i hii, hmem_rest i, ← hdone i hi]
      constructor
      · exact fun h => h.1
      · exact fun h => ⟨h, hii⟩
  have hflag2 : ∀ i ∈ rest, (a2 i).do_small_wait = (s.arena i).do_small_wait := by
    intro i hir
    rw [ha2_not i ((hmem_rest i).mp hir).2]
  by_cases hws : (s.arena id).do_small_wait = true
  · rw [if_pos hws]
    have hnone : ∀ i ∈ rest, (a2 i).do_small_wait = false := by
      intro i hir
      rw [hflag2 i hir]
      by_contra hc
      rw [Bool.not_eq_false] at hc
      have hieq : i = id := huniq i ((hmem_rest i).mp hir).1 id hidq hc hws
      exact ((hmem_rest i).mp hir).2 hieq
    refine ⟨hrest_nd, hbound2, ?_, ?_, ?_⟩
    · intro i hi
      rw [promote_head_done]
      exact hdone2 i hi
    · cases hh : rest.head? with
      | none =>
        intro j hj
        rw [List.head?_eq_none_iff.mp hh] at hj
        cases hj
      | some h0 =>
        have hval : ∀ i, promote_head a2 rest i =
            if i = h0 then { a2 i with do_small_wait := true } else a2 i := by
          intro i
          unfold promote_head
          rw [hh]
        intro j hj k hk hfj hfk
        rw [hval j] at hfj
        rw [hval k] at hfk
        by_cases hj0 : j = h0
        · by_cases hk0 : k = h0
          · rw [hj0, hk0]
          · rw [if_neg hk0] at hfk
            rw [hnone k hk] at hfk
            exact Bool.noConfusion hfk
        · rw [if_neg hj0] at hfj
          rw [hnone j hj] at hfj
          exact Bool.noConfusion hfj
    · cases hh : rest.head? with
      | none =>
        intro hne
        exact absurd (List.head?_eq_none_iff.mp hh) hne
      | some h0 =>
        have hval : ∀ i, promote_head a2 rest i =
            if i = h0 then { a2 i with do_small_wait := true } else a2 i := by
          intro i
          unfold promote_head
          rw [hh]
        intro hne
        obtain ⟨x, t, hxt⟩ := List.exists_cons_of_ne_nil hne
        have hx0 : x = h0 := by
          rw [hxt] at hh
          simpa using hh
        refine ⟨h0, ?_, ?_⟩
        · rw [hxt, ← hx0]
          exact List.mem_cons_self _ _
        · rw [hval h0, if_pos rfl]
  · rw [if_neg hws]
    refine ⟨hrest_nd, hbound2, hdone2, ?_, ?_⟩
    · intro j hj k hk hfj hfk
      rw [hflag2 j hj] at hfj
      rw [hflag2 k hk] at hfk
      exact huniq j ((hmem_rest j).mp hj).1 k ((hmem_rest k).mp hk).1 hfj hfk
    · intro hne
      have hq : s.queue ≠ [] := by
        intro h0
        rw [h0] at hidq
        exact absurd hidq (List.not_mem_nil id)
      rcases hex hq with ⟨f, hf, hff⟩
      have hfid : f ≠ id := by
        intro hfe
        rw [hfe] at hff
        rw [Bool.not_eq_true] at hws
        rw [hws] at hff
        exact Bool.noConfusion hff
      refine ⟨f, (hmem_rest f).mpr ⟨hf, hfid⟩, ?_⟩
      rw [ha2_not f hfid]
      exact hff

theorem wait_queue_inv_step {s s2 : domain_wait_state} (hinv : wait_queue_inv s)
    (h : wait_step s s2) : wait_queue_inv s2 := by
  cases h with
  | register thd wseq hlt => exact wait_queue_inv_register s thd wseq hinv
  | apply_event seq => exact wait_queue_inv_on_apply s seq hinv
  | wakeup => exact wait_queue_inv_wakeup s hinv
  | cancel id ha hb => exact wait_queue_inv_cancel s id ha hb hinv

theorem wait_queue_inv_init : wait_queue_inv domain_wait_init := by
  refine ⟨List.nodup_nil, ?_, ?_, ?_, ?_⟩
  · intro i hi
    cases hi
  · intro i hi
    rw [show domain_wait_init.next = 0 from rfl] at hi
    exact absurd hi (by omega)
  · intro j hj
    cases hj
  · intro hne
    exact absurd rfl hne

theorem registry_step_inv {st st2 : gtid_waiting_state}
    (hinv : ∀ d, wait_queue_inv (st.domains d)) (h : registry_step st st2) :
    ∀ d, wait_queue_inv (st2.domains d) := by
  cases h with
  | at_domain d0 s2 hstep =>
    intro d
    by_cases hd : d = d0
    · subst hd
      show wait_queue_inv (if d = d then s2 else st.domains d)
      rw [if_pos rfl]
      exact wait_queue_inv_step (hinv d) hstep
    · show wait_queue_inv (if d = d0 then s2 else st.domains d)
      rw [if_neg hd]
      exact hinv d

/-- Every reachable registry state satisfies the per-domain queue invariant. -/
theorem registry_inv (st : gtid_waiting_state) (h : registry_reachable st) :
    ∀ d, wait_queue_inv (st.domains d) := by
  induction h with
  | init => exact fun d => wait_queue_inv_init
  | step h1 h2 ih => exact registry_step_inv ih h2

/-- Registry state after registering one waiter (seq 10) in domain 0. -/
def wait_demo_registry : gtid_waiting_state :=
  ⟨fun x => if x = 0 then register_waiter (gtid_waiting_init.domains 0) 7 10
    else gtid_waiting_init.domains x⟩

/-- Registry state after additionally registering a second waiter (seq 5) in
domain 0: the newcomer becomes the queue head but the small-wait
responsibility stays with the first waiter. -/
def wait_demo_registry2 : gtid_waiting_state :=
  ⟨fun x => if x = 0 then register_waiter (wait_demo_registry.domains 0) 8 5
    else wait_demo_registry.domains x⟩

/-- C1: in every reachable state of the wait registry, a waiter sits in its
domain queue exactly while its `done` flag is false (completion — whether by
position reached, timeout or kill — sets `done` and removes, in one critical
section of the model); concretely, a waiter popped by the wakeup path ends
with `done = true` and out of the queue. -/
theorem waiter_in_queue_iff_not_done :
    (∀ st, registry_reachable st → ∀ d id, id < (st.domains d).next →
      (id ∈ (st.domains d).queue ↔ ((st.domains d).arena id).done = false)) ∧
    ((process_wait_queue (on_apply (register_waiter domain_wait_init 7 10) 10)).arena 0).done
        = true ∧
    0 ∉ (process_wait_queue (on_apply (register_waiter domain_wait_init 7 10) 10)).queue := by
  refine ⟨?_, by decide, by decide⟩
  intro st h d id hid
  exact (registry_inv st h d).2.2.1 id hid

/-- Witness for C1 at the one-waiter demo state. -/
theorem waiter_in_queue_iff_not_done_witness :
    0 ∈ (wait_demo_registry.domains 0).queue ↔
      ((wait_demo_registry.domains 0).arena 0).done = false :=
  waiter_in_queue_iff_not_done.1 wait_demo_registry
    (registry_reachable.step registry_reachable.init
      (registry_step.at_domain gtid_waiting_init 0 _
        (wait_step.register (gtid_waiting_init.domains 0) 7 10 (by decide))))
    0 0 (by decide)

/-- C3 as stated is false: after registering a waiter for seq 10 (which takes
the small-wait responsibility) and then one for seq 5 (which becomes the new
queue head, but — per Register step 3 of the spec, `small = (no current small
waiter)` — not the small waiter), the head of the non-empty domain-0 queue is
not the waiter marked `do_small_wait`. -/
theorem small_waiter_head_refuted :
    ¬ (∀ st, registry_reachable st → ∀ d hd,
        (st.domains d).queue.head? = some hd →
        (((st.domains d).arena hd).do_small_wait = true ∧
          ∀ j ∈ (st.domains d).queue,
            ((st.domains d).arena j).do_small_wait = true → j = hd)) := by
  intro hclaim
  have hreach : registry_reachable wait_demo_registry2 :=
    registry_reachable.step
      (registry_reachable.step registry_reachable.init
        (registry_step.at_domain gtid_waiting_init 0 _
          (wait_step.register (gtid_waiting_init.domains 0) 7 10 (by decide))))
      (registry_step.at_domain wait_demo_registry 0 _
        (wait_step.register (wait_demo_registry.domains 0) 8 5 (by decide)))
  have h := hclaim wait_demo_registry2 hreach 0 1 (by decide)
  exact absurd h.1 (by decide)

/-- C3 (amended): in every reachable registry state, no two waiters of one
domain hold the small-wait responsibility at once, and every domain with a
non-empty queue has exactly one such waiter — though it need not be the queue
head. -/
theorem small_waiter_unique (st : gtid_waiting_state)
    (h : registry_reachable st) (d : Nat) :
    (∀ j ∈ (st.domains d).queue, ∀ k ∈ (st.domains d).queue,
      ((st.domains d).arena j).do_small_wait = true →
      ((st.domains d).arena k).do_small_wait = true → j = k) ∧
    ((st.domains d).queue ≠ [] →
      ∃ j ∈ (st.domains d).queue, ((st.domains d).arena j).do_small_wait = true) :=
  ⟨(registry_inv st h d).2.2.2.1, (registry_inv st h d).2.2.2.2⟩

/-- Witness for the amended C3 at the two-waiter demo state. -/
theorem small_waiter_unique_witness :
    (∀ j ∈ (wait_demo_registry2.domains 0).queue,
      ∀ k ∈ (wait_demo_registry2.domains 0).queue,
        ((wait_demo_registry2.domains 0).arena j).do_small_wait = true →
        ((wait_demo_registry2.domains 0).arena k).do_small_wait = true → j = k) ∧
    ((wait_demo_registry2.domains 0).queue ≠ [] →
      ∃ j ∈ (wait_demo_registry2.domains 0).queue,
        ((wait_demo_registry2.domains 0).arena j).do_small_wait = true) :=
  small_waiter_unique wait_demo_registry2
    (registry_reachable.step
      (registry_reachable.step registry_reachable.init
        (registry_step.at_domain gtid_waiting_init 0 _
          (wait_step.register (gtid_waiting_init.domains 0) 7 10 (by decide))))
      (registry_step.at_domain wait_demo_registry 0 _
        (wait_step.register (wait_demo_registry.domains 0) 8 5 (by decide))))
    0
